import Mathlib

/-!
# Ground-motion monitor (`main.go`): poll loop, selector, classifier, alert level

A shallow embedding of the poll / dedup / classification loop of `main.go`,
followed by theorems about it.

Modelling conventions.

* `float64` is `F64`: the finite values are rationals (every finite double is a
  dyadic rational, and the comparison of two finite doubles is the comparison of
  their values), plus `NaN`, `+Inf` and `-Inf` with the IEEE-754 comparison.
  Negative zero is a value of its own: it compares as zero and prints its sign.
* `int64` timestamps are `Int`; the code only compares them and divides by 1000.
* The channel of one poll cycle is the list of the non-nil envelopes in the order
  in which the main goroutine receives them.
* Terminal, process and library effects are recorded in an explicit trace.
* A decimal constant of the source that is not a `float64` value stands for the
  `float64` it is converted to; `IsFloat64` singles out the finite `float64`
  values among the rationals where a statement needs it.
-/

namespace RSReader

/-! ## Data model -/

/-- Values of Go's `float64`: NaN, the two infinities, negative zero, and the
other finite values by their exact rational value (`fin 0` is positive zero). -/
inductive F64 where
  | nan : F64
  | negInf : F64
  | fin (q : ℚ) : F64
  | negZero : F64
  | posInf : F64
  deriving DecidableEq

namespace F64

/-- Go's `a < b` on `float64` (IEEE-754: every comparison with NaN is false, and
negative zero compares as zero). -/
def lt : F64 → F64 → Bool
  | nan, _ => false
  | _, nan => false
  | negInf, negInf => false
  | negInf, _ => true
  | _, negInf => false
  | posInf, _ => false
  | _, posInf => true
  | fin a, fin b => decide (a < b)
  | fin a, negZero => decide (a < 0)
  | negZero, fin b => decide (0 < b)
  | negZero, negZero => false

/-- Go's `a > b` on `float64`. -/
def gt (a b : F64) : Bool := lt b a

/-- Go's `a <= b` on `float64`. -/
def le : F64 → F64 → Bool
  | nan, _ => false
  | _, nan => false
  | negInf, _ => true
  | _, posInf => true
  | _, negInf => false
  | posInf, _ => false
  | fin a, fin b => decide (a ≤ b)
  | fin a, negZero => decide (a ≤ 0)
  | negZero, fin b => decide (0 ≤ b)
  | negZero, negZero => true

/-- The number a finite `float64` stands for; negative zero stands for zero. -/
def value : F64 → Option ℚ
  | fin q => some q
  | negZero => some 0
  | _ => none

/-- Go's `a >= b` on `float64`. -/
def ge (a b : F64) : Bool := le b a

end F64

/-- The finite values of `float64`: `m * 2 ^ e` with a significand of at most
53 bits and an exponent in the range of the format. -/
def IsFloat64 (q : ℚ) : Prop :=
  ∃ m e : ℤ, |m| < 2 ^ 53 ∧ -1074 ≤ e ∧ e ≤ 971 ∧ q = m * (2 : ℚ) ^ e

/-- The anonymous element type of `Response.Request.GM.List`. -/
structure Reading where
  ID : String
  Acc : F64
  Vel : F64
  Disp : F64
  Timestamp : Int
  deriving DecidableEq

/-- The anonymous struct type of `Response.Request.GM`. -/
structure GMBlock where
  list : List Reading
  deriving DecidableEq

/-- The anonymous struct type of `Response.Request`. -/
structure RequestBlock where
  GM : GMBlock
  deriving DecidableEq

/-- The type `Response` of `main.go`. -/
structure Response where
  Request : RequestBlock
  deriving DecidableEq

/-- The package-level configuration variables set by `init`. -/
structure Config where
  url : String
  logFile : String
  sensorID : String
  soundHighThreshold : F64
  soundMediumThreshold : F64

/-- The constant `defaultSoundHighThreshold`. -/
def defaultSoundHighThreshold : F64 := F64.fin 3500

/-- The constant `defaultSoundMediumThreshold`. -/
def defaultSoundMediumThreshold : F64 := F64.fin 350

/-- The configuration `init` builds when no environment variable is set. -/
def defaultConfig : Config where
  url := "https://api.raspberryshake.org/query/objects.json"
  logFile := "sensor.log"
  sensorID := "AM.R1B7B"
  soundHighThreshold := defaultSoundHighThreshold
  soundMediumThreshold := defaultSoundMediumThreshold

/-! ## Selector -/

/-- The loop of `findData`: the first item whose `ID` equals the sensor id. -/
def findInList (sensorID : String) : List Reading → Option Reading
  | [] => none
  | item :: rest => if item.ID = sensorID then some item else findInList sensorID rest

/-- The function `findData`; the global `sensorID` is passed in `cfg`. -/
def findData (cfg : Config) (data : Response) : Option Reading :=
  findInList cfg.sensorID data.Request.GM.list

/-! ## Classifier -/

/-- The colour attributes of `github.com/fatih/color` that `main.go` uses. -/
inductive Color where
  | FgGreen | FgYellow | FgRed | FgBlue | FgCyan | FgHiGreen | FgHiYellow
  | FgHiMagenta | FgMagenta | FgHiRed
  deriving DecidableEq, Repr

/-- The type `thresholdColor`. -/
structure thresholdColor where
  threshold : F64
  color : Color
  deriving DecidableEq

/-- The function `getColor`. -/
def getColor (value : F64) : List thresholdColor → Color
  | [] => Color.FgRed
  | tc :: rest => if F64.lt value tc.threshold then tc.color else getColor value rest

/-- The table `formatData` passes to `getColor` for the acceleration. -/
def accThresholds : List thresholdColor :=
  [⟨F64.fin 350, Color.FgGreen⟩,
   ⟨F64.fin 3500, Color.FgYellow⟩,
   ⟨F64.fin 10000, Color.FgRed⟩]

/-- The `float64` nearest to the decimal constant `0.2` (`0x1.999999999999ap-3`). -/
def float64_0_2 : ℚ := 3602879701896397 / 2 ^ 54

/-- The `float64` nearest to the decimal constant `0.4` (`0x1.999999999999ap-2`). -/
def float64_0_4 : ℚ := 3602879701896397 / 2 ^ 53

/-- The `float64` nearest to the decimal constant `0.8` (`0x1.999999999999ap-1`). -/
def float64_0_8 : ℚ := 3602879701896397 / 2 ^ 52

/-- The table `formatData` passes to `getColor` for the velocity. The constants
`0.2`, `0.4` and `0.8` are not `float64` values: the table holds the `float64`
each of them is converted to. The other constants are exact. -/
def velThresholds : List thresholdColor :=
  [⟨F64.fin float64_0_2, Color.FgBlue⟩,
   ⟨F64.fin float64_0_4, Color.FgCyan⟩,
   ⟨F64.fin float64_0_8, Color.FgHiGreen⟩,
   ⟨F64.fin (15 / 10), Color.FgHiYellow⟩,
   ⟨F64.fin 4, Color.FgYellow⟩,
   ⟨F64.fin 12, Color.FgHiMagenta⟩,
   ⟨F64.fin 30, Color.FgMagenta⟩,
   ⟨F64.fin 60, Color.FgHiRed⟩,
   ⟨F64.fin 1000, Color.FgRed⟩]

/-! ## Renderer -/

/-- Two decimal digits, zero padded. -/
def pad2 (n : Nat) : String :=
  if n < 10 then "0" ++ toString n else toString n

/-- The verb `%.2f` of Go's `fmt` on a `float64`: the exact value rounded to two
decimals, ties to even, the sign printed when the value is negative. -/
def fmtFixed2 : F64 → String
  | F64.nan => "NaN"
  | F64.posInf => "+Inf"
  | F64.negInf => "-Inf"
  | F64.negZero => "-0.00"
  | F64.fin q =>
    let n := q.num.natAbs * 100
    let d := q.den
    let k := n / d
    let r := n % d
    let m := if 2 * r < d then k else if d < 2 * r then k + 1 else if k % 2 = 0 then k else k + 1
    (if q < 0 then "-" else "") ++ toString (m / 100) ++ "." ++ pad2 (m % 100)

/-- What `main.go` takes from its environment and libraries. -/
structure Env where
  /-- The wrapping `(*color.Color).Sprintf` applies to the formatted text. -/
  colorize : Color → String → String
  /-- The text of `time.Unix(sec, 0).UTC().Format(time.RFC3339)`. -/
  formatRFC3339 : Int → String
  /-- The value of `runtime.GOOS`. -/
  goos : String

/-- The `fmt.Sprintf` call that ends `formatData`, for given colours. -/
def formatOutput (env : Env) (data : Reading) (accColor velColor : Color) : String :=
  "\r\nGround Motion\n" ++
  String.mk (List.replicate 40 '=') ++ "\n" ++
  "Data Time: " ++ env.formatRFC3339 (Int.tdiv data.Timestamp 1000) ++ "\n" ++
  "Acceleration: " ++ env.colorize accColor (fmtFixed2 data.Acc ++ " µm/s²") ++ "\n" ++
  "Velocity: " ++ env.colorize velColor (fmtFixed2 data.Vel ++ " µm/s") ++ "\n" ++
  "Displacement: " ++ fmtFixed2 data.Disp ++ " µm\n" ++
  String.mk (List.replicate 40 '=') ++ "\n"

/-- The function `formatData`. -/
def formatData (env : Env) (data : Reading) : String :=
  formatOutput env data (getColor data.Acc accThresholds) (getColor data.Vel velThresholds)

/-- One line of a colour legend printed by `displayIntroAndLegend`: the band
`lo - hi` and the colour the line is printed in. -/
structure LegendBand where
  lo : ℚ
  hi : ℚ
  color : Color

/-- The velocity colour legend of `displayIntroAndLegend`. -/
def velocityLegend : List LegendBand :=
  [⟨0, 2 / 10, Color.FgBlue⟩,
   ⟨2 / 10, 4 / 10, Color.FgCyan⟩,
   ⟨4 / 10, 8 / 10, Color.FgHiGreen⟩,
   ⟨8 / 10, 15 / 10, Color.FgHiYellow⟩,
   ⟨15 / 10, 4, Color.FgYellow⟩,
   ⟨4, 12, Color.FgHiMagenta⟩,
   ⟨12, 30, Color.FgMagenta⟩,
   ⟨30, 60, Color.FgHiRed⟩,
   ⟨60, 1000, Color.FgRed⟩]

/-- The acceleration colour legend of `displayIntroAndLegend`. -/
def accelerationLegend : List LegendBand :=
  [⟨0, 350, Color.FgGreen⟩,
   ⟨350, 3500, Color.FgYellow⟩,
   ⟨3500, 10000, Color.FgRed⟩]

/-! ## Alert dispatcher -/

/-- The level the `switch` of `playSound` passes to `getSystemSoundCommand`. -/
def soundLevel (cfg : Config) (data : Reading) : String :=
  if F64.gt data.Acc cfg.soundHighThreshold then "high"
  else if F64.gt data.Acc cfg.soundMediumThreshold then "medium"
  else "low"

/-- The function `getSystemSoundCommand`: the command line, `none` for `nil`. -/
def getSystemSoundCommand (goos level : String) : Option (List String) :=
  if goos = "windows" then
    if level = "high" then some ["cmd", "/c", "echo ^G"]
    else if level = "medium" then some ["cmd", "/c", "echo ^G"]
    else none
  else if goos = "darwin" then
    if level = "high" then some ["afplay", "/System/Library/Sounds/Hero.aiff"]
    else if level = "medium" then some ["afplay", "/System/Library/Sounds/Submarine.aiff"]
    else none
  else if goos = "linux" then
    if level = "high" then some ["paplay", "/usr/share/sounds/freedesktop/stereo/complete.oga"]
    else if level = "medium" then
      some ["paplay", "/usr/share/sounds/freedesktop/stereo/message.oga"]
    else none
  else none

/-- What the main goroutine does to the outside, in order. -/
inductive Effect where
  /-- The call `clearScreen()`. -/
  | clearScreen : Effect
  /-- The call `fmt.Print(s)`. -/
  | print (s : String) : Effect
  /-- The call `soundCmd.Run()`, a failure of which is passed to `logError`. -/
  | runSound (cmd : List String) : Effect
  deriving DecidableEq

/-- The function `playSound`. -/
def playSound (cfg : Config) (env : Env) (data : Reading) : List Effect :=
  match getSystemSoundCommand env.goos (soundLevel cfg data) with
  | some soundCmd => [Effect.runSound soundCmd]
  | none => []

/-! ## Deduplicator and poll cycle -/

/-- The global `lastTimestamp` together with the effects performed so far. -/
structure PollState where
  lastTimestamp : Int
  trace : List Effect
  deriving DecidableEq

/-- The state at process start: `lastTimestamp` is the zero value. -/
def PollState.init : PollState := ⟨0, []⟩

/-- The body of the `if` of the poll loop for an admitted reading. -/
def emit (cfg : Config) (env : Env) (st : PollState) (targetData : Reading) : PollState :=
  { lastTimestamp := targetData.Timestamp
    trace := st.trace ++
      ([Effect.clearScreen, Effect.print (formatData env targetData)] ++
        playSound cfg env targetData) }

/-- The admission check of the poll loop on a reading `findData` returned: the
new state and whether the reading was admitted (the loop then breaks). -/
def admission (cfg : Config) (env : Env) (st : PollState) (targetData : Reading) :
    PollState × Bool :=
  if targetData.Timestamp > st.lastTimestamp then (emit cfg env st targetData, true)
  else (st, false)

/-- The body of `for data := range results`: the new state and whether the
loop breaks. -/
def pollStep (cfg : Config) (env : Env) (st : PollState) (data : Response) :
    PollState × Bool :=
  match findData cfg data with
  | none => (st, false)
  | some targetData => admission cfg env st targetData

/-- The loop `for data := range results` on the envelopes in arrival order. -/
def pollCycle (cfg : Config) (env : Env) (st : PollState) : List Response → PollState
  | [] => st
  | data :: rest =>
    match pollStep cfg env st data with
    | (st', true) => st'
    | (st', false) => pollCycle cfg env st' rest

/-- What reaches the channel `results`: a goroutine whose `fetchData` returned
`nil` sends nothing. -/
def received (outcomes : List (Option Response)) : List Response :=
  outcomes.filterMap id

/-- The admission check applied to a sequence of readings, one after the other:
the final state and the admitted readings, in order. -/
def presentAll (cfg : Config) (env : Env) :
    PollState → List Reading → PollState × List Reading
  | st, [] => (st, [])
  | st, r :: rest =>
    let step := admission cfg env st r
    let tail := presentAll cfg env step.1 rest
    (tail.1, if step.2 then r :: tail.2 else tail.2)

/-! ## Fetcher -/

/-- The part of `*http.Response` that `fetchData` reads; `Body` is the result
of `ioutil.ReadAll(resp.Body)`. -/
structure HttpResponse where
  StatusCode : Int
  Body : Except String String

/-- The constant `http.StatusOK`. -/
def StatusOK : Int := 200

/-- The function `fetchData`, on the result of `http.Get(url)` and with
`json.Unmarshal` into a `Response` as `unmarshal`: the returned pointer (`none`
for `nil`) and the messages passed to `logError`, in order. -/
def fetchData (get : Except String HttpResponse)
    (unmarshal : String → Except String Response) : Option Response × List String :=
  match get with
  | Except.error err => (none, ["Error fetching data: " ++ err])
  | Except.ok resp =>
    if resp.StatusCode ≠ StatusOK then
      (none, ["Error fetching data: " ++ toString resp.StatusCode])
    else
      match resp.Body with
      | Except.error err => (none, ["Error reading response: " ++ err])
      | Except.ok body =>
        match unmarshal body with
        | Except.error err => (none, ["Error parsing JSON: " ++ err])
        | Except.ok data => (some data, [])

/-! ## Sample inputs used by the concrete instances below -/

/-- An environment with plain text colouring, on Linux. -/
def sampleEnv : Env where
  colorize := fun _ s => s
  formatRFC3339 := fun sec => toString sec
  goos := "linux"

/-- A reading with the identifier `id` and the timestamp `ts`. -/
def sampleReading (id : String) (ts : Int) : Reading :=
  ⟨id, F64.fin 1, F64.fin 2, F64.fin 3, ts⟩

/-- The envelope with the given list of readings. -/
def envelope (l : List Reading) : Response := ⟨⟨⟨l⟩⟩⟩

/-! ## Definitions used to state the theorems -/

/-- The `float64` nearest to the decimal `349.999` (`0x1.5dffbe76c8b44p+8`). -/
def float64_349_999 : ℚ := 1539311880839889 / 2 ^ 42

/-- The classifier as the specification words it: the colour of the first entry,
in table order, whose threshold is strictly greater than the value, and red when
there is none. -/
def classify (value : F64) (table : List thresholdColor) : Color :=
  match table.find? (fun tc => F64.lt value tc.threshold) with
  | some tc => tc.color
  | none => Color.FgRed

/-- A reading with the acceleration `acc`. -/
def readingWithAcc (acc : F64) : Reading :=
  ⟨"AM.R1B7B", acc, F64.fin 0, F64.fin 0, 1⟩

/-- The failures of `fetchData`: the transport fails, the status is other than
200, the body cannot be read, or the body does not parse. -/
def FetchFailure (get : Except String HttpResponse)
    (unmarshal : String → Except String Response) : Prop :=
  (∃ err, get = Except.error err) ∨
  (∃ resp, get = Except.ok resp ∧ resp.StatusCode ≠ 200) ∨
  (∃ resp err, get = Except.ok resp ∧ resp.Body = Except.error err) ∨
  (∃ resp body err, get = Except.ok resp ∧ resp.Body = Except.ok body ∧
    unmarshal body = Except.error err)

/-- A success status of HTTP: a code of the class 2xx. -/
def SuccessStatus (code : Int) : Prop := 200 ≤ code ∧ code ≤ 299

/-- The failures as the fetcher's contract words them: the transport fails, the
status is not a success status, the body cannot be read, or the body does not
parse. -/
def ContractFailure (get : Except String HttpResponse)
    (unmarshal : String → Except String Response) : Prop :=
  (∃ err, get = Except.error err) ∨
  (∃ resp, get = Except.ok resp ∧ ¬ SuccessStatus resp.StatusCode) ∨
  (∃ resp err, get = Except.ok resp ∧ resp.Body = Except.error err) ∨
  (∃ resp body err, get = Except.ok resp ∧ resp.Body = Except.ok body ∧
    unmarshal body = Except.error err)

/-- A response with the given status whose body reads as the JSON text of an
empty object. -/
def sampleResponse (status : Int) : Except String HttpResponse :=
  Except.ok ⟨status, Except.ok "\x7b\x7d"⟩

/-- A parser that accepts every body as the envelope with an empty list. -/
def sampleUnmarshal : String → Except String Response :=
  fun _ => Except.ok (envelope [])

/-- The effects of rendering and alerting on one reading, as `emit` performs them. -/
def renderEffects (cfg : Config) (env : Env) (r : Reading) : List Effect :=
  [Effect.clearScreen, Effect.print (formatData env r)] ++ playSound cfg env r

/-- An envelope yields a fresh reading: `findData` selects a reading and its
timestamp is greater than `last`. -/
def fresh (cfg : Config) (last : Int) (data : Response) : Bool :=
  match findData cfg data with
  | some r => decide (last < r.Timestamp)
  | none => false

/-- An outcome of one fetch yields no fresh reading: the fetch failed, or its
envelope has no reading for the sensor, or that reading is stale. -/
def NotFresh (cfg : Config) (last : Int) (o : Option Response) : Prop :=
  o = none ∨ ∃ data, o = some data ∧
    (findData cfg data = none ∨ ∃ r, findData cfg data = some r ∧ r.Timestamp ≤ last)

/-- Five fetch outcomes: two failed fetches, a stale envelope, one fresh
envelope and an envelope without the sensor. -/
def sampleOutcomes : List (Option Response) :=
  [none, some (envelope [sampleReading "AM.R1B7B" 10]),
    some (envelope [sampleReading "AM.R1B7B" 20]),
    some (envelope [sampleReading "XX.00000" 99]), none]

/-- The `float64` nearest to the decimal `1.23` (`0x1.3ae147ae147aep+0`). -/
def float64_1_23 : ℚ := 2769713770832855 / 2 ^ 51

/-- The reading of the scenario: acceleration 4000, velocity 5.0, displacement
1.23 (as a `float64`), timestamp 1000, for the default sensor. -/
def scenarioReading : Reading :=
  ⟨"AM.R1B7B", F64.fin 4000, F64.fin 5, F64.fin float64_1_23, 1000⟩

/-! ## Selector: theorems -/

theorem findInList_eq_some_iff (sid : String) (l : List Reading) (r : Reading) :
    findInList sid l = some r ↔
      ∃ pre post, l = pre ++ r :: post ∧ (∀ x ∈ pre, x.ID ≠ sid) ∧ r.ID = sid := by
  induction l with
  | nil => simp [findInList]
  | cons a t ih =>
    unfold findInList
    by_cases ha : a.ID = sid
    · rw [if_pos ha]
      constructor
      · intro h
        obtain rfl : a = r := Option.some.inj h
        exact ⟨[], t, rfl, by simp, ha⟩
      · rintro ⟨pre, post, hl, hpre, -⟩
        cases pre with
        | nil =>
          simp only [List.nil_append, List.cons.injEq] at hl
          rw [hl.1]
        | cons b pre' =>
          simp only [List.cons_append, List.cons.injEq] at hl
          exact absurd (hl.1 ▸ ha) (hpre b (List.mem_cons_self _ _))
    · rw [if_neg ha, ih]
      constructor
      · rintro ⟨pre, post, hl, hpre, hr⟩
        refine ⟨a :: pre, post, by simp [hl], ?_, hr⟩
        intro x hx
        rcases List.mem_cons.mp hx with rfl | hx
        · exact ha
        · exact hpre x hx
      · rintro ⟨pre, post, hl, hpre, hr⟩
        cases pre with
        | nil =>
          simp only [List.nil_append, List.cons.injEq] at hl
          exact absurd (hl.1 ▸ hr) ha
        | cons b pre' =>
          simp only [List.cons_append, List.cons.injEq] at hl
          exact ⟨pre', post, hl.2, fun x hx => hpre x (List.mem_cons_of_mem _ hx), hr⟩

theorem findInList_eq_none_iff (sid : String) (l : List Reading) :
    findInList sid l = none ↔ ∀ x ∈ l, x.ID ≠ sid := by
  induction l with
  | nil => simp [findInList]
  | cons a t ih =>
    unfold findInList
    by_cases ha : a.ID = sid
    · simp [ha]
    · simp [ha, ih]

/-- C7. `findData` returns the first element of the envelope's list whose `ID`
equals the configured sensor id, unchanged in every field, and returns nothing
exactly when no element has that `ID`; on the list `[A, B]` the sensor id `"B"`
selects the `B` reading and the sensor id `"C"` selects nothing. -/
theorem findData_first_match (cfg : Config) (data : Response) :
    (∀ r, findData cfg data = some r ↔
      ∃ pre post, data.Request.GM.list = pre ++ r :: post ∧
        (∀ x ∈ pre, x.ID ≠ cfg.sensorID) ∧ r.ID = cfg.sensorID) ∧
    (findData cfg data = none ↔ ∀ x ∈ data.Request.GM.list, x.ID ≠ cfg.sensorID) ∧
    (∀ (acc vel disp acc' vel' disp' : F64) (ts ts' : Int),
      findData { cfg with sensorID := "B" }
          (envelope [⟨"A", acc, vel, disp, ts⟩, ⟨"B", acc', vel', disp', ts'⟩])
        = some ⟨"B", acc', vel', disp', ts'⟩ ∧
      findData { cfg with sensorID := "C" }
          (envelope [⟨"A", acc, vel, disp, ts⟩, ⟨"B", acc', vel', disp', ts'⟩])
        = none) := by
  refine ⟨fun r => findInList_eq_some_iff _ _ r, findInList_eq_none_iff _ _, ?_⟩
  intro acc vel disp acc' vel' disp' ts ts'
  constructor
  · simp [findData, envelope, findInList]
  · simp [findData, envelope, findInList]

/-! ## Classifier: theorems -/

theorem getColor_eq_classify (value : F64) (table : List thresholdColor) :
    getColor value table = classify value table := by
  induction table with
  | nil => rfl
  | cons tc rest ih =>
    unfold getColor classify
    by_cases h : F64.lt value tc.threshold = true
    · simp [List.find?, h]
    · have h' : F64.lt value tc.threshold = false := by simpa using h
      simp only [List.find?, h', if_neg h]
      simpa [classify] using ih

theorem getColor_append_of_not_lt (value : F64) (pre rest : List thresholdColor)
    (hpre : ∀ x ∈ pre, F64.lt value x.threshold = false) :
    getColor value (pre ++ rest) = getColor value rest := by
  induction pre with
  | nil => rfl
  | cons a t ih =>
    have ha : F64.lt value a.threshold = false := hpre a (List.mem_cons_self _ _)
    simp only [List.cons_append, getColor, ha]
    exact ih (fun x hx => hpre x (List.mem_cons_of_mem _ hx))

/-- C5. `getColor` returns the colour of the first entry, in table order, whose
threshold is strictly greater than the value, and red when no threshold exceeds
the value (the empty table included); with the acceleration display table the
value 350 gets the colour above the 350 entry (yellow) and 349.999 gets the
colour of the 350 entry (green). -/
theorem getColor_first_exceeding (value : F64) (table : List thresholdColor) :
    getColor value table = classify value table ∧
    (∀ pre tc post, table = pre ++ tc :: post →
      (∀ x ∈ pre, F64.lt value x.threshold = false) → F64.lt value tc.threshold = true →
      getColor value table = tc.color) ∧
    ((∀ x ∈ table, F64.lt value x.threshold = false) → getColor value table = Color.FgRed) ∧
    getColor value [] = Color.FgRed ∧
    getColor (F64.fin 350) accThresholds = Color.FgYellow ∧
    getColor (F64.fin (349999 / 1000)) accThresholds = Color.FgGreen ∧
    getColor (F64.fin float64_349_999) accThresholds = Color.FgGreen := by
  refine ⟨getColor_eq_classify value table, ?_, ?_, rfl, ?_, ?_, ?_⟩
  · rintro pre tc post rfl hpre htc
    rw [getColor_append_of_not_lt value pre _ hpre]
    simp [getColor, htc]
  · intro h
    have := getColor_append_of_not_lt value table [] h
    simpa [getColor] using this
  · norm_num [getColor, accThresholds, F64.lt]
  · norm_num [getColor, accThresholds, F64.lt]
  · norm_num [getColor, accThresholds, F64.lt, float64_349_999]

/-! ## Alert dispatcher: theorems -/

theorem F64.lt_false_of_le {a b : F64} (h : F64.le a b = true) : F64.lt b a = false := by
  cases a <;> cases b <;> simp_all [F64.le, F64.lt]

theorem F64.le_of_le_of_le {a b c : F64} (hab : F64.le a b = true) (hbc : F64.le b c = true) :
    F64.le a c = true := by
  cases a <;> cases b <;> cases c <;> simp_all [F64.le]
  all_goals exact hab.trans hbc

/-- C6, as the code has it. With `medium <= high`, `playSound` chooses the level
low when `acc <= medium`, medium when `medium < acc <= high`, and high when
`acc > high`: an acceleration equal to a threshold falls into the lower level. With
the default thresholds, 3500 gives medium and 350 gives low. -/
theorem soundLevel_strict_greater (cfg : Config) (data : Reading)
    (hmh : F64.le cfg.soundMediumThreshold cfg.soundHighThreshold = true) :
    (F64.le data.Acc cfg.soundMediumThreshold = true → soundLevel cfg data = "low") ∧
    (F64.lt cfg.soundMediumThreshold data.Acc = true →
      F64.le data.Acc cfg.soundHighThreshold = true → soundLevel cfg data = "medium") ∧
    (F64.gt data.Acc cfg.soundHighThreshold = true → soundLevel cfg data = "high") ∧
    soundLevel defaultConfig (readingWithAcc (F64.fin 3500)) = "medium" ∧
    soundLevel defaultConfig (readingWithAcc (F64.fin 350)) = "low" := by
  refine ⟨?_, ?_, ?_, ?_, ?_⟩
  · intro h
    have h1 : F64.lt cfg.soundMediumThreshold data.Acc = false := F64.lt_false_of_le h
    have h2 : F64.lt cfg.soundHighThreshold data.Acc = false :=
      F64.lt_false_of_le (F64.le_of_le_of_le h hmh)
    simp [soundLevel, F64.gt, h1, h2]
  · intro h1 h
    have h2 : F64.lt cfg.soundHighThreshold data.Acc = false := F64.lt_false_of_le h
    simp [soundLevel, F64.gt, h1, h2]
  · intro h
    simp [soundLevel, h]
  · norm_num [soundLevel, defaultConfig, readingWithAcc, F64.gt, F64.lt,
      defaultSoundHighThreshold, defaultSoundMediumThreshold]
  · norm_num [soundLevel, defaultConfig, readingWithAcc, F64.gt, F64.lt,
      defaultSoundHighThreshold, defaultSoundMediumThreshold]

/-- An instance of `soundLevel_strict_greater`: the default thresholds and the
acceleration 4000. -/
theorem soundLevel_strict_greater_witness :
    F64.le defaultConfig.soundMediumThreshold defaultConfig.soundHighThreshold = true ∧
    soundLevel defaultConfig (readingWithAcc (F64.fin 4000)) = "high" :=
  ⟨by norm_num [defaultConfig, defaultSoundHighThreshold, defaultSoundMediumThreshold, F64.le],
   (soundLevel_strict_greater defaultConfig (readingWithAcc (F64.fin 4000))
      (by norm_num [defaultConfig, defaultSoundHighThreshold, defaultSoundMediumThreshold,
        F64.le])).2.2.1
      (by norm_num [defaultConfig, defaultSoundHighThreshold, readingWithAcc, F64.gt,
        F64.lt])⟩

/-- C6, as the claim has it, fails: with the default thresholds (medium 350 <=
high 3500) the acceleration 3500 is `>= high`, yet the level is medium and not
high; the acceleration 350 is `>= medium` and `< high`, yet the level is low and
not medium. -/
theorem soundLevel_boundary_counterexample :
    F64.le defaultConfig.soundMediumThreshold defaultConfig.soundHighThreshold = true ∧
    F64.ge (readingWithAcc (F64.fin 3500)).Acc defaultConfig.soundHighThreshold = true ∧
    soundLevel defaultConfig (readingWithAcc (F64.fin 3500)) ≠ "high" ∧
    F64.le defaultConfig.soundMediumThreshold (readingWithAcc (F64.fin 350)).Acc = true ∧
    F64.lt (readingWithAcc (F64.fin 350)).Acc defaultConfig.soundHighThreshold = true ∧
    soundLevel defaultConfig (readingWithAcc (F64.fin 350)) ≠ "medium" := by
  norm_num [soundLevel, defaultConfig, readingWithAcc, F64.gt, F64.ge, F64.lt, F64.le,
    defaultSoundHighThreshold, defaultSoundMediumThreshold]
  constructor <;> decide

/-! ## Fetcher: theorems -/

/-- C9, as the code has it. `fetchData` is fail-soft: when the transport fails,
the status is other than 200 (`http.StatusOK`), the body cannot be read or the
body does not parse, it returns `nil` and passes exactly one message to
`logError`; when none of these occurs, the status being exactly 200, it returns
the parsed envelope and logs nothing; it returns an envelope exactly then. The
function is total: the caller always gets a result and never an error. -/
theorem fetchData_fail_soft (get : Except String HttpResponse)
    (unmarshal : String → Except String Response) :
    (FetchFailure get unmarshal →
      (fetchData get unmarshal).1 = none ∧ ∃ msg, (fetchData get unmarshal).2 = [msg]) ∧
    (¬ FetchFailure get unmarshal →
      ∃ resp body data, get = Except.ok resp ∧ resp.StatusCode = 200 ∧
        resp.Body = Except.ok body ∧ unmarshal body = Except.ok data ∧
        fetchData get unmarshal = (some data, [])) ∧
    ((∃ data, fetchData get unmarshal = (some data, [])) ↔ ¬ FetchFailure get unmarshal) ∧
    ((fetchData get unmarshal).2 = [] ↔ ¬ FetchFailure get unmarshal) ∧
    (∀ resp, get = Except.ok resp → resp.StatusCode ≠ 200 →
      fetchData get unmarshal =
        (none, ["Error fetching data: " ++ toString resp.StatusCode])) := by
  cases get with
  | error err =>
    have hf : FetchFailure (Except.error err) unmarshal := Or.inl ⟨err, rfl⟩
    simp [hf, fetchData]
  | ok resp =>
    by_cases hs : resp.StatusCode = 200
    · cases hb : resp.Body with
      | error err =>
        have hf : FetchFailure (Except.ok resp) unmarshal :=
          Or.inr (Or.inr (Or.inl ⟨resp, err, rfl, hb⟩))
        simp [hf, fetchData, StatusOK, hs, hb]
      | ok body =>
        cases hu : unmarshal body with
        | error err =>
          have hf : FetchFailure (Except.ok resp) unmarshal :=
            Or.inr (Or.inr (Or.inr ⟨resp, body, err, rfl, hb, hu⟩))
          simp [hf, fetchData, StatusOK, hs, hb, hu]
        | ok data =>
          have hf : ¬ FetchFailure (Except.ok resp) unmarshal := by
            rintro (⟨e, h⟩ | ⟨r, h, h'⟩ | ⟨r, e, h, h'⟩ | ⟨r, b, e, h, h', h''⟩)
            · cases h
            · cases h
              exact h' hs
            · cases h
              rw [hb] at h'
              cases h'
            · cases h
              rw [hb] at h'
              cases h'
              rw [hu] at h''
              cases h''
          simp [hf, fetchData, StatusOK, hs, hb, hu]
    · have hf : FetchFailure (Except.ok resp) unmarshal := Or.inr (Or.inl ⟨resp, rfl, hs⟩)
      simp [hf, fetchData, StatusOK, hs]

/-- C9, as the claim has it, fails: on a response with the success status 204
(and likewise 203) whose body is read and parses, none of the failures the
contract lists occurs, yet `fetchData` returns `nil` instead of the parsed
envelope and passes a message to `logError`. -/
theorem fetchData_success_status_counterexample :
    SuccessStatus 204 ∧
    ¬ ContractFailure (sampleResponse 204) sampleUnmarshal ∧
    fetchData (sampleResponse 204) sampleUnmarshal = (none, ["Error fetching data: 204"]) ∧
    SuccessStatus 203 ∧
    ¬ ContractFailure (sampleResponse 203) sampleUnmarshal ∧
    fetchData (sampleResponse 203) sampleUnmarshal = (none, ["Error fetching data: 203"]) := by
  have hnot : ∀ code : Int, SuccessStatus code →
      ¬ ContractFailure (sampleResponse code) sampleUnmarshal := by
    intro code hc
    rintro (⟨e, h⟩ | ⟨r, h, h'⟩ | ⟨r, e, h, h'⟩ | ⟨r, b, e, h, h', h''⟩)
    · cases h
    · cases h
      exact h' hc
    · cases h
      cases h'
    · cases h
      cases h''
  have h204 : SuccessStatus 204 := ⟨by decide, by decide⟩
  have h203 : SuccessStatus 203 := ⟨by decide, by decide⟩
  refine ⟨h204, hnot 204 h204, ?_, h203, hnot 203 h203, ?_⟩
  · simp [fetchData, sampleResponse, sampleUnmarshal, StatusOK]
    decide
  · simp [fetchData, sampleResponse, sampleUnmarshal, StatusOK]
    decide

/-! ## Deduplicator: theorems -/

theorem admission_of_gt (cfg : Config) (env : Env) (st : PollState) (r : Reading)
    (h : st.lastTimestamp < r.Timestamp) : admission cfg env st r = (emit cfg env st r, true) := by
  unfold admission
  rw [if_pos h]

theorem admission_of_le (cfg : Config) (env : Env) (st : PollState) (r : Reading)
    (h : r.Timestamp ≤ st.lastTimestamp) : admission cfg env st r = (st, false) := by
  unfold admission
  rw [if_neg (not_lt.mpr h)]

/-- The invariant of the admission check from an arbitrary state. -/
theorem presentAll_inv (cfg : Config) (env : Env) (rs : List Reading) (st : PollState) :
    List.Pairwise (fun a b => a < b) ((presentAll cfg env st rs).2.map (fun r => r.Timestamp)) ∧
    (∀ r ∈ (presentAll cfg env st rs).2, st.lastTimestamp < r.Timestamp) ∧
    st.lastTimestamp ≤ (presentAll cfg env st rs).1.lastTimestamp ∧
    (presentAll cfg env st rs).1.lastTimestamp =
      (((presentAll cfg env st rs).2.map (fun r => r.Timestamp)).getLast?).getD st.lastTimestamp ∧
    (presentAll cfg env st rs).1.trace =
      st.trace ++ ((presentAll cfg env st rs).2.map (renderEffects cfg env)).flatten ∧
    List.Sublist (presentAll cfg env st rs).2 rs := by
  induction rs generalizing st with
  | nil => simp [presentAll]
  | cons r rest ih =>
    by_cases h : st.lastTimestamp < r.Timestamp
    · obtain ⟨h1, h2, h3, h4, h5, h6⟩ := ih (emit cfg env st r)
      have hstep : admission cfg env st r = (emit cfg env st r, true) :=
        admission_of_gt cfg env st r h
      have hlast : (emit cfg env st r).lastTimestamp = r.Timestamp := rfl
      simp only [presentAll, hstep, if_true]
      refine ⟨?_, ?_, ?_, ?_, ?_, ?_⟩
      · simp only [List.map_cons, List.pairwise_cons]
        refine ⟨?_, h1⟩
        intro t ht
        obtain ⟨x, hx, rfl⟩ := List.mem_map.mp ht
        exact hlast ▸ h2 x hx
      · intro x hx
        rcases List.mem_cons.mp hx with rfl | hx
        · exact h
        · exact lt_trans h (hlast ▸ h2 x hx)
      · exact le_trans (le_of_lt h) (hlast ▸ h3)
      · rw [h4, hlast]
        cases hadm : (presentAll cfg env (emit cfg env st r) rest).2 with
        | nil => simp
        | cons y ys => simp [List.getLast?_cons]
      · rw [h5]
        simp [emit, renderEffects, List.append_assoc]
      · exact h6.cons₂ r
    · obtain ⟨h1, h2, h3, h4, h5, h6⟩ := ih st
      have hstep : admission cfg env st r = (st, false) :=
        admission_of_le cfg env st r (not_lt.mp h)
      simp only [presentAll, hstep]
      exact ⟨h1, h2, h3, h4, h5, h6.cons r⟩

theorem presentAll_cons (cfg : Config) (env : Env) (st : PollState) (r : Reading)
    (rest : List Reading) :
    presentAll cfg env st (r :: rest) =
      ((presentAll cfg env (admission cfg env st r).1 rest).1,
        if (admission cfg env st r).2 then
          r :: (presentAll cfg env (admission cfg env st r).1 rest).2
        else (presentAll cfg env (admission cfg env st r).1 rest).2) := rfl

theorem presentAll_append (cfg : Config) (env : Env) (pre post : List Reading) (st : PollState) :
    presentAll cfg env st (pre ++ post) =
      ((presentAll cfg env (presentAll cfg env st pre).1 post).1,
        (presentAll cfg env st pre).2 ++
          (presentAll cfg env (presentAll cfg env st pre).1 post).2) := by
  induction pre generalizing st with
  | nil => simp [presentAll]
  | cons r rest ih =>
    rw [List.cons_append, presentAll_cons, presentAll_cons, ih]
    split <;> simp

/-- C1. From `lastTimestamp = 0`, for every sequence of readings presented to the
admission check in any order: the admitted readings, which are exactly the
rendered ones, have strictly increasing timestamps; `lastTimestamp` never
decreases; and `lastTimestamp` is the timestamp of the last admitted reading, or
0 when none was admitted. -/
theorem dedup_monotone (cfg : Config) (env : Env) (rs : List Reading) :
    List.Pairwise (fun a b => a < b)
      ((presentAll cfg env PollState.init rs).2.map (fun r => r.Timestamp)) ∧
    (∀ pre post, rs = pre ++ post →
      (presentAll cfg env PollState.init pre).1.lastTimestamp ≤
        (presentAll cfg env PollState.init rs).1.lastTimestamp) ∧
    (presentAll cfg env PollState.init rs).1.lastTimestamp =
      (((presentAll cfg env PollState.init rs).2.map (fun r => r.Timestamp)).getLast?).getD 0 ∧
    (presentAll cfg env PollState.init rs).1.trace =
      ((presentAll cfg env PollState.init rs).2.map (renderEffects cfg env)).flatten ∧
    List.Sublist (presentAll cfg env PollState.init rs).2 rs := by
  obtain ⟨h1, -, -, h4, h5, h6⟩ := presentAll_inv cfg env rs PollState.init
  refine ⟨h1, ?_, h4, by simpa [PollState.init] using h5, h6⟩
  rintro pre post rfl
  rw [presentAll_append]
  exact (presentAll_inv cfg env post (presentAll cfg env PollState.init pre).1).2.2.1

/-- C2. A reading whose timestamp is not greater than `lastTimestamp` is
rejected: the state, and with it the trace of renders and alerts, is unchanged,
in the admission check, in the loop body and in a whole cycle on it; and a
reading that was just admitted is rejected when presented again. -/
theorem stale_rejected (cfg : Config) (env : Env) (st : PollState) (r : Reading)
    (h : r.Timestamp ≤ st.lastTimestamp) :
    admission cfg env st r = (st, false) ∧
    (∀ data, findData cfg data = some r →
      pollStep cfg env st data = (st, false) ∧ pollCycle cfg env st [data] = st) ∧
    (∀ st₀, (admission cfg env st₀ r).2 = true →
      admission cfg env (admission cfg env st₀ r).1 r =
        ((admission cfg env st₀ r).1, false)) := by
  have hrej := admission_of_le cfg env st r h
  refine ⟨hrej, ?_, ?_⟩
  · intro data hdata
    have hstep : pollStep cfg env st data = (st, false) := by
      simp only [pollStep, hdata, hrej]
    exact ⟨hstep, by simp only [pollCycle, hstep]⟩
  · intro st₀ hadm
    by_cases hlt : st₀.lastTimestamp < r.Timestamp
    · rw [admission_of_gt cfg env st₀ r hlt]
      exact admission_of_le cfg env _ r (le_refl _)
    · rw [admission_of_le cfg env st₀ r (not_lt.mp hlt)] at hadm
      cases hadm

/-- An instance of `stale_rejected`: the timestamp 5 against the state 5. -/
theorem stale_rejected_witness :
    (sampleReading "AM.R1B7B" 5).Timestamp ≤ (PollState.mk 5 []).lastTimestamp ∧
    admission defaultConfig sampleEnv (PollState.mk 5 []) (sampleReading "AM.R1B7B" 5)
      = (PollState.mk 5 [], false) :=
  ⟨by decide,
   (stale_rejected defaultConfig sampleEnv (PollState.mk 5 [])
      (sampleReading "AM.R1B7B" 5) (by decide)).1⟩

/-! ## Poll cycle: theorems -/

theorem pollStep_of_not_fresh (cfg : Config) (env : Env) (st : PollState) (data : Response)
    (h : fresh cfg st.lastTimestamp data = false) : pollStep cfg env st data = (st, false) := by
  unfold fresh at h
  unfold pollStep
  cases hf : findData cfg data with
  | none => rfl
  | some r =>
    rw [hf] at h
    exact admission_of_le cfg env st r (not_lt.mp (by simpa using h))

theorem pollStep_of_fresh (cfg : Config) (env : Env) (st : PollState) (data : Response)
    (r : Reading) (hf : findData cfg data = some r) (h : st.lastTimestamp < r.Timestamp) :
    pollStep cfg env st data = (emit cfg env st r, true) := by
  unfold pollStep
  rw [hf]
  exact admission_of_gt cfg env st r h

theorem pollCycle_skip (cfg : Config) (env : Env) (st : PollState) (pre rest : List Response)
    (hpre : ∀ x ∈ pre, fresh cfg st.lastTimestamp x = false) :
    pollCycle cfg env st (pre ++ rest) = pollCycle cfg env st rest := by
  induction pre with
  | nil => rfl
  | cons a t ih =>
    have ha := pollStep_of_not_fresh cfg env st a (hpre a (List.mem_cons_self _ _))
    simp only [List.cons_append, pollCycle, ha]
    exact ih (fun x hx => hpre x (List.mem_cons_of_mem _ hx))

theorem pollCycle_first_fresh (cfg : Config) (env : Env) (st : PollState)
    (pre : List Response) (data : Response) (post : List Response) (r : Reading)
    (hpre : ∀ x ∈ pre, fresh cfg st.lastTimestamp x = false)
    (hf : findData cfg data = some r) (h : st.lastTimestamp < r.Timestamp) :
    pollCycle cfg env st (pre ++ data :: post) = emit cfg env st r := by
  rw [pollCycle_skip cfg env st pre _ hpre]
  simp only [pollCycle, pollStep_of_fresh cfg env st data r hf h]

theorem pollCycle_none_fresh (cfg : Config) (env : Env) (st : PollState)
    (results : List Response) (h : ∀ x ∈ results, fresh cfg st.lastTimestamp x = false) :
    pollCycle cfg env st results = st := by
  have := pollCycle_skip cfg env st results [] h
  simpa [pollCycle] using this

/-- A poll cycle is the admission check applied to some of the readings that
`findData` selects from the received envelopes, in arrival order: those up to the
first admitted one. -/
theorem pollCycle_eq_presentAll (cfg : Config) (env : Env) (st : PollState)
    (results : List Response) :
    ∃ rs, List.Sublist rs (results.filterMap (findData cfg)) ∧
      pollCycle cfg env st results = (presentAll cfg env st rs).1 := by
  induction results with
  | nil => exact ⟨[], by simp, rfl⟩
  | cons data rest ih =>
    obtain ⟨rs, hsub, hrs⟩ := ih
    cases hf : findData cfg data with
    | none =>
      refine ⟨rs, by simpa [List.filterMap_cons, hf] using hsub, ?_⟩
      simp only [pollCycle, pollStep, hf]
      exact hrs
    | some r =>
      by_cases h : st.lastTimestamp < r.Timestamp
      · refine ⟨[r], by simp [List.filterMap_cons, hf], ?_⟩
        simp only [pollCycle, pollStep_of_fresh cfg env st data r hf h, presentAll,
          admission_of_gt cfg env st r h]
      · have hle : r.Timestamp ≤ st.lastTimestamp := not_lt.mp h
        refine ⟨r :: rs, by simpa [List.filterMap_cons, hf] using hsub, ?_⟩
        have hstep : pollStep cfg env st data = (st, false) := by
          simp only [pollStep, hf, admission_of_le cfg env st r hle]
        simp only [pollCycle, hstep, presentAll, admission_of_le cfg env st r hle]
        exact hrs

/-- C3. One poll cycle on the envelopes in arrival order renders and alerts on at
most one reading: the one `findData` selects from the first envelope whose
selected reading exists and is newer than `lastTimestamp`, which then becomes
that reading's timestamp; when no envelope has such a reading (empty list, no
matching id, or all stale) the state and the trace are unchanged. -/
theorem pollCycle_first_admitted (cfg : Config) (env : Env) (st : PollState)
    (results : List Response) :
    (pollCycle cfg env st results = st ∨
      ∃ r, pollCycle cfg env st results =
        ⟨r.Timestamp, st.trace ++ renderEffects cfg env r⟩) ∧
    (∀ pre data post r, results = pre ++ data :: post →
      (∀ x ∈ pre, fresh cfg st.lastTimestamp x = false) →
      findData cfg data = some r → st.lastTimestamp < r.Timestamp →
      pollCycle cfg env st results = ⟨r.Timestamp, st.trace ++ renderEffects cfg env r⟩) ∧
    ((∀ x ∈ results, fresh cfg st.lastTimestamp x = false) →
      pollCycle cfg env st results = st) ∧
    pollCycle cfg env st [] = st := by
  have key : ∀ pre data post r, results = pre ++ data :: post →
      (∀ x ∈ pre, fresh cfg st.lastTimestamp x = false) →
      findData cfg data = some r → st.lastTimestamp < r.Timestamp →
      pollCycle cfg env st results = ⟨r.Timestamp, st.trace ++ renderEffects cfg env r⟩ := by
    rintro pre data post r rfl hpre hf h
    exact pollCycle_first_fresh cfg env st pre data post r hpre hf h
  refine ⟨?_, key, pollCycle_none_fresh cfg env st results, rfl⟩
  by_cases hall : ∀ x ∈ results, fresh cfg st.lastTimestamp x = false
  · exact Or.inl (pollCycle_none_fresh cfg env st results hall)
  · right
    have hex : ∃ x ∈ results, fresh cfg st.lastTimestamp x = true := by
      by_contra hne
      apply hall
      intro x hx
      cases hfx : fresh cfg st.lastTimestamp x with
      | false => rfl
      | true => exact absurd ⟨x, hx, hfx⟩ hne
    have hfind : ∃ data, results.find? (fresh cfg st.lastTimestamp) = some data := by
      obtain ⟨x, hx, hfx⟩ := hex
      cases hfd : results.find? (fresh cfg st.lastTimestamp) with
      | none => exact absurd hfx (by simpa using List.find?_eq_none.mp hfd x hx)
      | some d => exact ⟨d, rfl⟩
    obtain ⟨data, hdata⟩ := hfind
    obtain ⟨hfresh, pre, post, hres, hpre⟩ := List.find?_eq_some.mp hdata
    unfold fresh at hfresh
    cases hfd : findData cfg data with
    | none => simp [hfd] at hfresh
    | some r =>
      rw [hfd] at hfresh
      refine ⟨r, key pre data post r hres ?_ hfd (by simpa using hfresh)⟩
      intro x hx
      simpa using hpre x hx

theorem fresh_false_of_notFresh (cfg : Config) (last : Int) (data : Response)
    (h : NotFresh cfg last (some data)) : fresh cfg last data = false := by
  rcases h with h | ⟨d, hd, h⟩
  · cases h
  · obtain rfl : data = d := Option.some.inj hd
    unfold fresh
    rcases h with h | ⟨r, hr, hle⟩
    · rw [h]
    · rw [hr]
      simpa using hle

theorem pollCycle_unique_fresh (cfg : Config) (env : Env) (st : PollState) (data : Response)
    (r : Reading) (hf : findData cfg data = some r) (h : st.lastTimestamp < r.Timestamp)
    (results : List Response) (hmem : data ∈ results)
    (huniq : ∀ x ∈ results, x ≠ data → fresh cfg st.lastTimestamp x = false) :
    pollCycle cfg env st results = emit cfg env st r := by
  induction results with
  | nil => cases hmem
  | cons a t ih =>
    by_cases ha : a = data
    · subst ha
      simp only [pollCycle, pollStep_of_fresh cfg env st a r hf h]
    · have hstep := pollStep_of_not_fresh cfg env st a (huniq a (List.mem_cons_self _ _) ha)
      simp only [pollCycle, hstep]
      refine ih ?_ (fun x hx => huniq x (List.mem_cons_of_mem _ hx))
      rcases List.mem_cons.mp hmem with hd | hd
      · exact absurd hd.symm ha
      · exact hd

/-- C4. In a cycle of 5 fetch outcomes of which exactly one yields a reading of
the configured sensor newer than `lastTimestamp`, while each of the other four
failed, has no reading for the sensor or has a stale one, the cycle renders and
alerts exactly once, on that reading, in every arrival order of the outcomes. -/
theorem fanout_exactly_once (cfg : Config) (env : Env) (st : PollState)
    (outcomes arrival : List (Option Response)) (pre post : List (Option Response))
    (data : Response) (r : Reading)
    (_hlen : outcomes.length = 5)
    (hout : outcomes = pre ++ some data :: post)
    (hf : findData cfg data = some r) (hnew : st.lastTimestamp < r.Timestamp)
    (hothers : ∀ o ∈ pre ++ post, NotFresh cfg st.lastTimestamp o)
    (harr : List.Perm arrival outcomes) :
    pollCycle cfg env st (received arrival) =
      ⟨r.Timestamp, st.trace ++ renderEffects cfg env r⟩ := by
  have hmemo : ∀ o ∈ arrival, o = some data ∨ o ∈ pre ++ post := by
    intro o ho
    have : o ∈ pre ++ some data :: post := hout ▸ harr.mem_iff.mp ho
    simp only [List.mem_append, List.mem_cons] at this ⊢
    tauto
  have hmem : data ∈ received arrival := by
    have : some data ∈ arrival := harr.mem_iff.mpr (by simp [hout])
    simpa [received] using this
  have huniq : ∀ x ∈ received arrival, x ≠ data → fresh cfg st.lastTimestamp x = false := by
    intro x hx hne
    have hx' : some x ∈ arrival := by simpa [received] using hx
    rcases hmemo (some x) hx' with h | h
    · exact absurd (Option.some.inj h) hne
    · exact fresh_false_of_notFresh cfg _ x (hothers _ h)
  exact pollCycle_unique_fresh cfg env st data r hf hnew _ hmem huniq

/-- An instance of `fanout_exactly_once`: the outcomes `sampleOutcomes`, received
in reverse order, against `lastTimestamp = 10`. -/
theorem fanout_exactly_once_witness :
    sampleOutcomes.length = 5 ∧
    (PollState.mk 10 []).lastTimestamp < (sampleReading "AM.R1B7B" 20).Timestamp ∧
    pollCycle defaultConfig sampleEnv (PollState.mk 10 []) (received sampleOutcomes.reverse) =
      ⟨20, [] ++ renderEffects defaultConfig sampleEnv (sampleReading "AM.R1B7B" 20)⟩ :=
  ⟨rfl, by decide,
   fanout_exactly_once defaultConfig sampleEnv (PollState.mk 10 [])
     sampleOutcomes sampleOutcomes.reverse
     [none, some (envelope [sampleReading "AM.R1B7B" 10])]
     [some (envelope [sampleReading "XX.00000" 99]), none]
     (envelope [sampleReading "AM.R1B7B" 20]) (sampleReading "AM.R1B7B" 20)
     rfl rfl
     (by simp [findData, findInList, envelope, defaultConfig, sampleReading])
     (by decide)
     (by
       intro o ho
       simp only [List.cons_append, List.nil_append, List.mem_cons, List.mem_singleton,
         List.not_mem_nil, or_false] at ho
       rcases ho with rfl | rfl | rfl | rfl
       · exact Or.inl rfl
       · exact Or.inr ⟨_, rfl, Or.inr ⟨sampleReading "AM.R1B7B" 10,
           by simp [findData, findInList, envelope, defaultConfig, sampleReading],
           by decide⟩⟩
       · exact Or.inr ⟨_, rfl, Or.inl
           (by simp [findData, findInList, envelope, defaultConfig, sampleReading])⟩
       · exact Or.inl rfl)
     (List.reverse_perm _)⟩

/-! ## Decimal constants and `float64` values -/

/-- Between a decimal constant `c` and the `float64` `N / 2 ^ k` it is converted
to there is no `float64` value: a `float64` is below the one exactly when it is
below the other. Here `N / 2 ^ k` is the least multiple of `2 ^ -k` that is not
below `c`, and `c` is large enough for every `float64` with a finer spacing than
`2 ^ -k` to lie below it. -/
theorem lt_float64_iff (k : ℕ) (N : ℤ) (c : ℚ)
    (h1 : ((N - 1 : ℤ) : ℚ) / 2 ^ k < c) (h2 : c ≤ (N : ℚ) / 2 ^ k)
    (h3 : (2 : ℚ) ^ 53 / 2 ^ (k + 1) ≤ c) (v : ℚ) (hv : IsFloat64 v) :
    v < (N : ℚ) / 2 ^ k ↔ v < c := by
  constructor
  · intro hlt
    obtain ⟨m, e, hm, -, -, rfl⟩ := hv
    have hk : (0 : ℚ) < 2 ^ k := by positivity
    by_cases he : -(k : ℤ) ≤ e
    · obtain ⟨n, hn⟩ := Int.eq_ofNat_of_zero_le (by omega : 0 ≤ e + k)
      have he' : e = (n : ℤ) - k := by omega
      have hpow : (2 : ℚ) ^ e = 2 ^ n / 2 ^ k := by
        rw [he', zpow_sub₀ (by norm_num), zpow_natCast, zpow_natCast]
      have hval : (m : ℚ) * 2 ^ e = ((m * 2 ^ n : ℤ) : ℚ) / 2 ^ k := by
        rw [hpow]
        push_cast
        ring
      rw [hval] at hlt ⊢
      have hK : ((m * 2 ^ n : ℤ) : ℚ) < (N : ℚ) := (div_lt_div_iff_of_pos_right hk).mp hlt
      have hK' : m * 2 ^ n ≤ N - 1 := Int.le_sub_one_of_lt (Int.cast_lt.mp hK)
      have hKq : ((m * 2 ^ n : ℤ) : ℚ) ≤ ((N - 1 : ℤ) : ℚ) := Int.cast_le.mpr hK'
      exact lt_of_le_of_lt ((div_le_div_iff_of_pos_right hk).mpr hKq) h1
    · have he' : e ≤ -((k : ℤ) + 1) := by omega
      have hpow : (2 : ℚ) ^ e ≤ 2 ^ (-((k : ℤ) + 1)) :=
        zpow_le_zpow_right₀ (by norm_num) he'
      have hpow' : (2 : ℚ) ^ (-((k : ℤ) + 1)) = 1 / 2 ^ (k + 1) := by
        rw [zpow_neg, one_div]
        norm_cast
      have hpos : (0 : ℚ) < 2 ^ e := by positivity
      have hm' : (m : ℚ) < 2 ^ 53 := by exact_mod_cast (abs_lt.mp hm).2
      calc (m : ℚ) * 2 ^ e < 2 ^ 53 * 2 ^ e := mul_lt_mul_of_pos_right hm' hpos
        _ ≤ 2 ^ 53 * (1 / 2 ^ (k + 1)) :=
            mul_le_mul_of_nonneg_left (hpow.trans (le_of_eq hpow')) (by positivity)
        _ = 2 ^ 53 / 2 ^ (k + 1) := by ring
        _ ≤ c := h3
  · intro h
    exact lt_of_lt_of_le h h2

theorem lt_float64_0_2_iff (v : ℚ) (hv : IsFloat64 v) : v < float64_0_2 ↔ v < 2 / 10 := by
  have h := lt_float64_iff 55 7205759403792794 (2 / 10) (by norm_num) (by norm_num)
    (by norm_num) v hv
  have hc : float64_0_2 = ((7205759403792794 : ℤ) : ℚ) / 2 ^ 55 := by
    norm_num [float64_0_2]
  rw [hc]
  exact h

theorem lt_float64_0_4_iff (v : ℚ) (hv : IsFloat64 v) : v < float64_0_4 ↔ v < 4 / 10 := by
  have h := lt_float64_iff 54 7205759403792794 (4 / 10) (by norm_num) (by norm_num)
    (by norm_num) v hv
  have hc : float64_0_4 = ((7205759403792794 : ℤ) : ℚ) / 2 ^ 54 := by
    norm_num [float64_0_4]
  rw [hc]
  exact h

theorem lt_float64_0_8_iff (v : ℚ) (hv : IsFloat64 v) : v < float64_0_8 ↔ v < 8 / 10 := by
  have h := lt_float64_iff 53 7205759403792794 (8 / 10) (by norm_num) (by norm_num)
    (by norm_num) v hv
  have hc : float64_0_8 = ((7205759403792794 : ℤ) : ℚ) / 2 ^ 53 := by
    norm_num [float64_0_8]
  rw [hc]
  exact h

/-- The rule `strings.Repeat("=", 40)`. -/
theorem rule40 :
    String.mk (List.replicate 40 '=') = "========================================" := by
  decide

/-- On a `float64` value the velocity table decides by the decimal bounds. -/
theorem getColor_velThresholds (x : F64) (v : ℚ) (hx : x.value = some v) (hv : IsFloat64 v) :
    getColor x velThresholds =
      if v < 2 / 10 then Color.FgBlue
      else if v < 4 / 10 then Color.FgCyan
      else if v < 8 / 10 then Color.FgHiGreen
      else if v < 15 / 10 then Color.FgHiYellow
      else if v < 4 then Color.FgYellow
      else if v < 12 then Color.FgHiMagenta
      else if v < 30 then Color.FgMagenta
      else if v < 60 then Color.FgHiRed
      else Color.FgRed := by
  cases x with
  | nan => simp [F64.value] at hx
  | negInf => simp [F64.value] at hx
  | posInf => simp [F64.value] at hx
  | negZero =>
    obtain rfl : (0 : ℚ) = v := by simpa [F64.value] using hx
    norm_num [getColor, velThresholds, F64.lt, float64_0_2]
  | fin q =>
    obtain rfl : q = v := by simpa [F64.value] using hx
    simp only [getColor, velThresholds, F64.lt, decide_eq_true_eq, lt_float64_0_2_iff q hv,
      lt_float64_0_4_iff q hv, lt_float64_0_8_iff q hv]
    split_ifs <;> rfl

/-- The acceleration table decides by its bounds. -/
theorem getColor_accThresholds (x : F64) (v : ℚ) (hx : x.value = some v) :
    getColor x accThresholds =
      if v < 350 then Color.FgGreen
      else if v < 3500 then Color.FgYellow
      else Color.FgRed := by
  cases x with
  | nan => simp [F64.value] at hx
  | negInf => simp [F64.value] at hx
  | posInf => simp [F64.value] at hx
  | negZero =>
    obtain rfl : (0 : ℚ) = v := by simpa [F64.value] using hx
    norm_num [getColor, accThresholds, F64.lt]
  | fin q =>
    obtain rfl : q = v := by simpa [F64.value] using hx
    simp only [getColor, accThresholds, F64.lt, decide_eq_true_eq]
    split_ifs <;> rfl

/-- C10. The colour legend printed at startup agrees with what `formatData`
renders. For a velocity that is a finite `float64` of value `v` in a band
`lo <= v < hi` of the velocity legend, the text `formatData` returns carries the
velocity, on its line, wrapped in the colour of that legend line; for an
acceleration of value `v` in a band of the acceleration legend, the text carries
the acceleration, on its line, wrapped in the colour of that legend line. -/
theorem legend_agrees_with_formatData (env : Env) (data : Reading) :
    (∀ b ∈ velocityLegend, ∀ v, data.Vel.value = some v → IsFloat64 v →
      b.lo ≤ v → v < b.hi →
      getColor data.Vel velThresholds = b.color ∧
      formatData env data =
        "\r\nGround Motion\n" ++
        "========================================" ++ "\n" ++
        "Data Time: " ++ env.formatRFC3339 (Int.tdiv data.Timestamp 1000) ++ "\n" ++
        "Acceleration: " ++
          env.colorize (getColor data.Acc accThresholds) (fmtFixed2 data.Acc ++ " µm/s²") ++
          "\n" ++
        "Velocity: " ++ env.colorize b.color (fmtFixed2 data.Vel ++ " µm/s") ++ "\n" ++
        "Displacement: " ++ fmtFixed2 data.Disp ++ " µm\n" ++
        "========================================" ++ "\n") ∧
    (∀ b ∈ accelerationLegend, ∀ v, data.Acc.value = some v → b.lo ≤ v → v < b.hi →
      getColor data.Acc accThresholds = b.color ∧
      formatData env data =
        "\r\nGround Motion\n" ++
        "========================================" ++ "\n" ++
        "Data Time: " ++ env.formatRFC3339 (Int.tdiv data.Timestamp 1000) ++ "\n" ++
        "Acceleration: " ++ env.colorize b.color (fmtFixed2 data.Acc ++ " µm/s²") ++ "\n" ++
        "Velocity: " ++
          env.colorize (getColor data.Vel velThresholds) (fmtFixed2 data.Vel ++ " µm/s") ++
          "\n" ++
        "Displacement: " ++ fmtFixed2 data.Disp ++ " µm\n" ++
        "========================================" ++ "\n") := by
  constructor
  · intro b hb v hvel hv hlo hhi
    have hcol : getColor data.Vel velThresholds = b.color := by
      rw [getColor_velThresholds data.Vel v hvel hv]
      simp only [velocityLegend, List.mem_cons, List.mem_singleton, List.not_mem_nil,
        or_false] at hb
      rcases hb with rfl | rfl | rfl | rfl | rfl | rfl | rfl | rfl | rfl <;>
        simp only at hlo hhi ⊢ <;>
        split_ifs <;> first | rfl | (exfalso; linarith)
    refine ⟨hcol, ?_⟩
    rw [formatData, hcol]
    simp only [formatOutput, rule40]
  · intro b hb v hacc hlo hhi
    have hcol : getColor data.Acc accThresholds = b.color := by
      rw [getColor_accThresholds data.Acc v hacc]
      simp only [accelerationLegend, List.mem_cons, List.mem_singleton, List.not_mem_nil,
        or_false] at hb
      rcases hb with rfl | rfl | rfl <;>
        simp only at hlo hhi ⊢ <;>
        split_ifs <;> first | rfl | (exfalso; linarith)
    refine ⟨hcol, ?_⟩
    rw [formatData, hcol]
    simp only [formatOutput, rule40]

/-! ## End-to-end scenario -/

theorem fmtFixed2_4000 : fmtFixed2 (F64.fin 4000) = "4000.00" := by
  simp only [fmtFixed2, Rat.num_ofNat, Rat.den_ofNat]
  norm_num
  decide

theorem fmtFixed2_5 : fmtFixed2 (F64.fin 5) = "5.00" := by
  simp only [fmtFixed2, Rat.num_ofNat, Rat.den_ofNat]
  norm_num
  decide

theorem float64_1_23_num : float64_1_23.num = 2769713770832855 := by
  have h : float64_1_23 = ((2769713770832855 : ℤ) : ℚ) / ((2251799813685248 : ℤ) : ℚ) := by
    norm_num [float64_1_23]
  rw [h]
  exact Rat.num_div_eq_of_coprime (by norm_num) (by norm_num)

theorem float64_1_23_den : float64_1_23.den = 2251799813685248 := by
  have h : float64_1_23 = ((2769713770832855 : ℤ) : ℚ) / ((2251799813685248 : ℤ) : ℚ) := by
    norm_num [float64_1_23]
  have hd : ((float64_1_23.den : ℤ)) = 2251799813685248 := by
    rw [h]
    exact Rat.den_div_eq_of_coprime (by norm_num) (by norm_num)
  exact_mod_cast hd

theorem fmtFixed2_1_23 : fmtFixed2 (F64.fin float64_1_23) = "1.23" := by
  have hpos : ¬ float64_1_23 < 0 := by norm_num [float64_1_23]
  simp only [fmtFixed2, float64_1_23_num, float64_1_23_den, if_neg hpos]
  decide

/-- C8. On the reading (acc 4000, vel 5.0, disp 1.23, timestamp 1000) of the
configured sensor, with `lastTimestamp = 0` and the default thresholds: the poll
cycle admits the reading and `lastTimestamp` becomes 1000; `playSound` selects
the level high (on Linux it runs the command of that level); the velocity colour
is that of the table entry with bound 12.0, which follows the entry with bound
4.0; and the rendered text holds the displacement as `1.23 µm`. -/
theorem end_to_end_scenario (env : Env) :
    pollCycle defaultConfig env PollState.init [envelope [scenarioReading]] =
      ⟨1000, [Effect.clearScreen, Effect.print (formatData env scenarioReading)] ++
        playSound defaultConfig env scenarioReading⟩ ∧
    admission defaultConfig env PollState.init scenarioReading =
      (emit defaultConfig env PollState.init scenarioReading, true) ∧
    soundLevel defaultConfig scenarioReading = "high" ∧
    playSound defaultConfig { env with goos := "linux" } scenarioReading =
      [Effect.runSound ["paplay", "/usr/share/sounds/freedesktop/stereo/complete.oga"]] ∧
    getColor scenarioReading.Vel velThresholds = Color.FgHiMagenta ∧
    velThresholds[4]? = some ⟨F64.fin 4, Color.FgYellow⟩ ∧
    velThresholds[5]? = some ⟨F64.fin 12, Color.FgHiMagenta⟩ ∧
    formatData env scenarioReading =
      "\r\nGround Motion\n" ++
      "========================================" ++ "\n" ++
      "Data Time: " ++ env.formatRFC3339 1 ++ "\n" ++
      "Acceleration: " ++ env.colorize Color.FgRed ("4000.00" ++ " µm/s²") ++ "\n" ++
      "Velocity: " ++ env.colorize Color.FgHiMagenta ("5.00" ++ " µm/s") ++ "\n" ++
      "Displacement: " ++ "1.23" ++ " µm\n" ++
      "========================================" ++ "\n" := by
  have hadm : admission defaultConfig env PollState.init scenarioReading =
      (emit defaultConfig env PollState.init scenarioReading, true) :=
    admission_of_gt _ _ _ _ (by decide)
  have hfind : findData defaultConfig (envelope [scenarioReading]) = some scenarioReading := by
    simp [findData, findInList, envelope, defaultConfig, scenarioReading]
  have hlevel : soundLevel defaultConfig scenarioReading = "high" := by
    norm_num [soundLevel, defaultConfig, scenarioReading, F64.gt, F64.lt,
      defaultSoundHighThreshold]
  have hvel : getColor scenarioReading.Vel velThresholds = Color.FgHiMagenta := by
    norm_num [getColor, velThresholds, scenarioReading, F64.lt, float64_0_2, float64_0_4,
      float64_0_8]
  have hacc : getColor scenarioReading.Acc accThresholds = Color.FgRed := by
    norm_num [getColor, accThresholds, scenarioReading, F64.lt]
  refine ⟨?_, hadm, hlevel, ?_, hvel, rfl, rfl, ?_⟩
  · simp only [pollCycle, pollStep, hfind, hadm]
    simp [emit, PollState.init, scenarioReading]
  · simp only [playSound, hlevel]
    rfl
  · have htime : Int.tdiv scenarioReading.Timestamp 1000 = 1 := by decide
    rw [formatData, hacc, hvel]
    simp only [formatOutput, htime, rule40]
    simp only [scenarioReading, fmtFixed2_4000, fmtFixed2_5, fmtFixed2_1_23]

end RSReader
